import Mathlib

/-!
# Keyboard capture (`kbd.c`): a shallow embedding

`kbd.c` switches the controlling terminal to a raw, non-echoing mode, opens an
evdev node, and republishes key press / release events on file descriptor 1 as
3-byte records.

The program only talks to the outside world through system calls, so the
embedding is a function from an *environment* (the answers the system calls
give) to the *trace* of calls the program issues together with its exit status.
The `while (1)` loop is run with a bound on the number of iterations; a status
of `none` means that the loop is still running when the bound is reached.
-/

namespace Kbd

/-! ## Constants and types that come from the system headers -/

/-- Values the system headers supply to `kbd.c`: `sizeof(struct input_event)`,
`EV_KEY`, the `c_lflag` masks `ECHO` and `ICANON`, the `c_cc` slots `VMIN` and
`VTIME`, and the byte order in which a `__u16` lies in memory. -/
structure Host where
  recordSize : Nat
  EV_KEY : Nat
  ECHO : Nat
  ICANON : Nat
  VMIN : Nat
  VTIME : Nat
  littleEndian : Bool

/-- The values of `Host` on x86-64 Linux. -/
def linux64 : Host where
  recordSize := 24
  EV_KEY := 1
  ECHO := 8
  ICANON := 2
  VMIN := 6
  VTIME := 5
  littleEndian := true

/-- The record `struct termios` of `<termios.h>`: four flag words of type
`tcflag_t` (a 32-bit unsigned integer), the line discipline, the control
characters `c_cc[NCCS]` and the two speeds. -/
structure termios where
  c_iflag : Nat
  c_oflag : Nat
  c_cflag : Nat
  c_lflag : Nat
  c_line : Nat
  c_cc : List Nat
  c_ispeed : Nat
  c_ospeed : Nat
deriving DecidableEq

/-- The record `struct input_event` of `<linux/input.h>`: a time stamp, the
`__u16` fields `type` and `code`, and the `__s32` field `value`. -/
structure input_event where
  tv_sec : Int
  tv_usec : Int
  type : Nat
  code : Nat
  value : Int
deriving DecidableEq

/-! ## The environment -/

/-- The answers of the system calls.

* `stdin_term` is the content of the local `stdin_term` when `tcgetattr`
  returns: the attributes of the terminal when the call succeeds, whatever the
  stack held when it fails.
* `id` is the content of the local array `id` when the `EVIOCGID` request
  returns.
* `readRet k` is the value the `k`-th `read` leaves in `ReadDevice`. A `read`
  of `64 * sizeof(struct input_event)` bytes returns a value between `-1` and
  that count, so the conversion from `ssize_t` to `int` changes nothing.
* `InputEvent k Index` is the content of `InputEvent[Index]` when the `k`-th
  `read` returns.
* `writeRet k Index j` is the value returned by the `j`-th `write` (`0` for
  the value byte, `1` for the code) issued for record `Index` of batch `k`. -/
structure Env where
  tcgetattrRet : Int
  stdin_term : termios
  tcsetattrRet : Int
  openRet : Int
  versionRet : Int
  version : Int
  idRet : Int
  id : Nat → Nat
  bitRet : Int
  readRet : Nat → Int
  InputEvent : Nat → Nat → input_event
  writeRet : Nat → Nat → Nat → Int

/-- The three messages handed to `perror`. -/
inductive Message where
  | openFailed
  | versionFailed
  | readFailed
deriving DecidableEq

/-- One call to the outside world, with what the program passes and what the
environment answers. -/
inductive Event where
  | tcgetattr (fd : Nat) (ret : Int)
  | tcsetattr (fd : Nat) (attrs : termios) (ret : Int)
  | openDevice (ret : Int)
  | ioctlVersion (ret : Int)
  | fprintfVersion (major minor patch : Int)
  | ioctlId (ret : Int)
  | fprintfId (bus vendor product version : Nat)
  | ioctlBit (ret : Int)
  | read (k : Nat) (ret : Int)
  | write (fd : Nat) (bytes : List Nat) (ret : Int)
  | perror (msg : Message)
  | close (fd : Int)
deriving DecidableEq

/-! ## Integer conversions -/

/-- The operand `~(ECHO | ICANON)` of `&=`: the complement is taken on `int`
and the result is converted to the 32-bit unsigned type of `c_lflag`. -/
def notMask (mask : Nat) : Nat :=
  ((-(mask : Int) - 1) % 2 ^ 32).toNat

/-- Conversion of the `__s32` field `value` to `__u8`. -/
def toU8 (v : Int) : Nat :=
  (v % 256).toNat

/-- Conversion to `__u16`. -/
def toU16 (c : Nat) : Nat :=
  c % 65536

/-- The two bytes a `__u16` occupies in memory, lowest address first. -/
def nativeBytes (h : Host) (code : Nat) : List Nat :=
  if h.littleEndian then [code % 256, code / 256 % 256]
  else [code / 256 % 256, code % 256]

/-! ## The program -/

/-- The function `block_stdin` (lines 20-27). -/
def block_stdin (h : Host) (env : Env) : List Event :=
  let stdin_term := env.stdin_term
  let stdin_term :=
    { stdin_term with c_lflag := stdin_term.c_lflag &&& notMask (h.ECHO ||| h.ICANON) }
  let stdin_term := { stdin_term with c_cc := stdin_term.c_cc.set h.VMIN 0 }
  let stdin_term := { stdin_term with c_cc := stdin_term.c_cc.set h.VTIME 1 }
  [Event.tcgetattr 0 env.tcgetattrRet, Event.tcsetattr 0 stdin_term env.tcsetattrRet]

/-- The two `write` calls of lines 88-89, for batch `k` and record `Index`. -/
def emit (h : Host) (env : Env) (k Index : Nat) (value code : Nat) : List Event :=
  [Event.write 1 [value] (env.writeRet k Index 0),
   Event.write 1 (nativeBytes h code) (env.writeRet k Index 1)]

/-- The body of the `for` loop (lines 78-92) on `InputEvent[Index]` of batch
`k`. -/
def handleRecord (h : Host) (env : Env) (k Index : Nat) : List Event :=
  if (env.InputEvent k Index).type = h.EV_KEY then
    if (env.InputEvent k Index).value = 2 then
      []
    else
      let value := toU8 (env.InputEvent k Index).value
      let code := toU16 (env.InputEvent k Index).code
      emit h env k Index value code
  else
    []

/-- The `for` loop of line 68, `for (Index = ..; Index < bound; Index++)`,
with `remaining = bound - Index` iterations still to run. -/
def forLoop (body : Nat → List Event) : Nat → Nat → List Event
  | 0, _ => []
  | remaining + 1, Index => body Index ++ forLoop body remaining (Index + 1)

/-- One iteration of `while (1)` (lines 60-94): the `k`-th `read`, then either
the fatal branch or the `for` loop over `ReadDevice / sizeof(struct
input_event)` records. The status is `none` when the loop goes on. -/
def iteration (h : Host) (env : Env) (FileDevice : Int) (k : Nat) :
    List Event × Option Int :=
  let ReadDevice := env.readRet k
  if ReadDevice < (h.recordSize : Int) then
    ([Event.read k ReadDevice, Event.perror Message.readFailed, Event.close FileDevice],
      some 1)
  else
    (Event.read k ReadDevice ::
        forLoop (handleRecord h env k) (ReadDevice.toNat / h.recordSize) 0,
      none)

/-- The loop `while (1)` from its `k`-th iteration on, for at most `fuel`
iterations. -/
def whileLoop (h : Host) (env : Env) (FileDevice : Int) : Nat → Nat → List Event × Option Int
  | 0, _ => ([], none)
  | fuel + 1, k =>
    match iteration h env FileDevice k with
    | (events, some status) => (events, some status)
    | (events, none) =>
      (events ++ (whileLoop h env FileDevice fuel (k + 1)).1,
        (whileLoop h env FileDevice fuel (k + 1)).2)

/-- The calls between a successful version query and the loop (lines 43-54). -/
def report (env : Env) : List Event :=
  [Event.fprintfVersion (env.version >>> 16) ((env.version >>> 8) % 256) (env.version % 256),
   Event.ioctlId env.idRet,
   Event.fprintfId (env.id 0) (env.id 1) (env.id 2) (env.id 3),
   Event.ioctlBit env.bitRet]

/-- The function `main` (lines 29-98), with at most `fuel` iterations of its
loop: the trace of calls and the exit status, `none` while the loop runs. -/
def main (h : Host) (env : Env) (fuel : Nat) : List Event × Option Int :=
  let FileDevice := env.openRet
  if FileDevice = -1 then
    (block_stdin h env ++ [Event.openDevice FileDevice, Event.perror Message.openFailed],
      some 1)
  else if env.versionRet ≠ 0 then
    (block_stdin h env ++
        [Event.openDevice FileDevice, Event.ioctlVersion env.versionRet,
         Event.perror Message.versionFailed, Event.close FileDevice],
      some 1)
  else
    (block_stdin h env ++
        [Event.openDevice FileDevice, Event.ioctlVersion env.versionRet] ++ report env ++
        (whileLoop h env FileDevice fuel 0).1,
      (whileLoop h env FileDevice fuel 0).2)

/-! ## Observations on traces -/

/-- The bytes one call hands to the output channel: those of a `write` on
file descriptor 1. -/
def handed : Event → List Nat
  | Event.write fd bytes _ => if fd = 1 then bytes else []
  | _ => []

/-- The bytes the output channel takes from one call: of a `write` on file
descriptor 1, as many bytes as its return value says, none when it is
negative. -/
def taken : Event → List Nat
  | Event.write fd bytes ret => if fd = 1 then bytes.take ret.toNat else []
  | _ => []

/-- The bytes the program hands to `write` on file descriptor 1, in order. -/
def submitted : List Event → List Nat
  | [] => []
  | e :: rest => handed e ++ submitted rest

/-- The bytes the output channel takes, in order. -/
def delivered : List Event → List Nat
  | [] => []
  | e :: rest => taken e ++ delivered rest

/-- Every `write` returns the number of bytes it was given. -/
def WritesComplete (env : Env) : Prop :=
  ∀ k Index, env.writeRet k Index 0 = 1 ∧ env.writeRet k Index 1 = 2

/-- Modelled from the spec: the 16-bit number a consumer of the stream on the
same host reads from two consecutive bytes, lowest address first. The consumer
is not part of `kbd.c`. -/
def combine (h : Host) (c0 c1 : Nat) : Nat :=
  if h.littleEndian then c0 + 256 * c1 else 256 * c0 + c1

/-- Modelled from the spec: the decoder of one 3-byte record `[v, c0, c1]`,
which gives `value = v` and `code` the native 16-bit combination of `c0` and
`c1`. The decoder is not part of `kbd.c`. -/
def decode (h : Host) : List Nat → Option (Nat × Nat)
  | [v, c0, c1] => some (v, combine h c0 c1)
  | _ => none

/-- The calls of `count` consecutive iterations of `while (1)`, the first of
them being the iteration `k`. -/
def rounds (h : Host) (env : Env) (FileDevice : Int) : Nat → Nat → List Event
  | 0, _ => []
  | count + 1, k =>
    (iteration h env FileDevice k).1 ++ rounds h env FileDevice count (k + 1)

/-- The calls of `main` before the loop when the device opens and answers the
version query (lines 30-54). -/
def setup (h : Host) (env : Env) : List Event :=
  block_stdin h env ++ [Event.openDevice env.openRet, Event.ioctlVersion env.versionRet] ++
    report env

/-- The call with the value a `write` returned left out. -/
def forget : Event → Event
  | Event.write fd bytes _ => Event.write fd bytes 0
  | e => e

/-! ## Sample environments -/

/-- Attributes of a terminal in its usual cooked mode. -/
def cookedTerm : termios where
  c_iflag := 17664
  c_oflag := 5
  c_cflag := 191
  c_lflag := 35387
  c_line := 0
  c_cc := [3, 28, 127, 21, 4, 0, 1, 0, 17, 19, 26, 0, 18, 15, 23, 22,
    0, 0, 0, 0, 0, 0, 0, 0, 0, 0, 0, 0, 0, 0, 0, 0]
  c_ispeed := 15
  c_ospeed := 15

/-- What `block_stdin` makes of `cookedTerm` on `linux64`. -/
def rawTerm : termios where
  c_iflag := 17664
  c_oflag := 5
  c_cflag := 191
  c_lflag := 35377
  c_line := 0
  c_cc := [3, 28, 127, 21, 4, 1, 0, 0, 17, 19, 26, 0, 18, 15, 23, 22,
    0, 0, 0, 0, 0, 0, 0, 0, 0, 0, 0, 0, 0, 0, 0, 0]
  c_ispeed := 15
  c_ospeed := 15

/-- The content of the buffer `InputEvent` in the sample runs: the key with
code 30 pressed, repeated and released, a synchronization record, and a key
record with the value 258. -/
def sampleBuffer (Index : Nat) : input_event :=
  if Index = 0 then ⟨0, 0, 1, 30, 1⟩
  else if Index = 1 then ⟨0, 0, 1, 30, 2⟩
  else if Index = 2 then ⟨0, 0, 1, 30, 0⟩
  else if Index = 3 then ⟨0, 0, 0, 0, 0⟩
  else if Index = 4 then ⟨0, 0, 1, 30, 258⟩
  else ⟨0, 0, 0, 0, 0⟩

/-- A run on `linux64` in which every call succeeds, the first read brings
three records (72 bytes), the second brings five records and 8 bytes more
(128 bytes), and the third fails. -/
def sampleEnv : Env where
  tcgetattrRet := 0
  stdin_term := cookedTerm
  tcsetattrRet := 0
  openRet := 3
  versionRet := 0
  version := 65537
  idRet := 0
  id := fun _ => 1
  bitRet := 0
  readRet := fun k => if k = 0 then 72 else if k = 1 then 128 else -1
  InputEvent := fun _ Index => sampleBuffer Index
  writeRet := fun _ _ j => if j = 0 then 1 else 2

/-- The sample run with a device that cannot be opened. -/
def envOpenFails : Env :=
  { sampleEnv with openRet := -1 }

/-- The sample run with a version query that fails. -/
def envVersionFails : Env :=
  { sampleEnv with versionRet := -1 }

/-- A run in which every read brings one record, the key with code 30 pressed,
and every `write` fails. -/
def envWriteFails : Env :=
  { sampleEnv with readRet := fun _ => 24, writeRet := fun _ _ _ => -1 }

/-! ## Lemmas on the observations -/

theorem submitted_append (s t : List Event) :
    submitted (s ++ t) = submitted s ++ submitted t := by
  induction s with
  | nil => rfl
  | cons e s ih =>
    show handed e ++ submitted (s ++ t) = handed e ++ submitted s ++ submitted t
    rw [ih, List.append_assoc]

theorem delivered_append (s t : List Event) :
    delivered (s ++ t) = delivered s ++ delivered t := by
  induction s with
  | nil => rfl
  | cons e s ih =>
    show taken e ++ delivered (s ++ t) = taken e ++ delivered s ++ delivered t
    rw [ih, List.append_assoc]

theorem nativeBytes_length (h : Host) (code : Nat) : (nativeBytes h code).length = 2 := by
  unfold nativeBytes
  split <;> rfl

theorem submitted_emit (h : Host) (env : Env) (k Index value code : Nat) :
    submitted (emit h env k Index value code) = value :: nativeBytes h code := by
  simp [emit, submitted, handed]

theorem delivered_emit (h : Host) (env : Env) (hw : WritesComplete env)
    (k Index value code : Nat) :
    delivered (emit h env k Index value code) = value :: nativeBytes h code := by
  have h2 : (nativeBytes h code).take 2 = nativeBytes h code :=
    List.take_of_length_le (by rw [nativeBytes_length])
  simp [emit, delivered, taken, (hw k Index).1, (hw k Index).2, h2]

theorem combine_nativeBytes (h : Host) (value code : Nat) (hc : code < 65536) :
    decode h (value :: nativeBytes h code) = some (value, code) := by
  unfold nativeBytes
  split <;> rename_i hle <;> simp only [decode, combine, hle, if_true, Bool.false_eq_true,
    if_false, Option.some.injEq, Prod.mk.injEq, true_and] <;> omega

theorem nativeBytes_combine (h : Host) (c0 c1 : Nat) (h0 : c0 < 256) (h1 : c1 < 256) :
    nativeBytes h (combine h c0 c1) = [c0, c1] := by
  unfold nativeBytes combine
  split <;> simp only [List.cons.injEq, and_true] <;> omega

theorem toU8_of_byte (v : Int) (h0 : 0 ≤ v) (h1 : v < 256) : ((toU8 v : Nat) : Int) = v := by
  unfold toU8
  omega

/-! ## Translation and encoding of one record -/

/-- Claim C1: a key record with value Pressed (1) or Released (0) is forwarded
as exactly one event, the two writes that carry its value and its code; a key
record with value Repeated (2) and a record of any other type are forwarded as
nothing, no call at all being issued for them. -/
theorem handleRecord_filter (h : Host) (env : Env) (k Index : Nat) :
    ((env.InputEvent k Index).type = h.EV_KEY →
      ((env.InputEvent k Index).value = 1 ∨ (env.InputEvent k Index).value = 0) →
      (env.InputEvent k Index).code < 65536 →
        handleRecord h env k Index =
            emit h env k Index (env.InputEvent k Index).value.toNat
              (env.InputEvent k Index).code ∧
          decode h (submitted (handleRecord h env k Index)) =
            some ((env.InputEvent k Index).value.toNat, (env.InputEvent k Index).code) ∧
          (WritesComplete env →
            decode h (delivered (handleRecord h env k Index)) =
              some ((env.InputEvent k Index).value.toNat, (env.InputEvent k Index).code))) ∧
    ((env.InputEvent k Index).type = h.EV_KEY → (env.InputEvent k Index).value = 2 →
      handleRecord h env k Index = []) ∧
    ((env.InputEvent k Index).type ≠ h.EV_KEY →
      handleRecord h env k Index = [] ∧ submitted (handleRecord h env k Index) = []
        ∧ delivered (handleRecord h env k Index) = []) := by
  refine ⟨?_, ?_, ?_⟩
  · intro ht hv hc
    have hval : toU8 (env.InputEvent k Index).value = (env.InputEvent k Index).value.toNat := by
      rcases hv with hv | hv <;> rw [hv] <;> rfl
    have hcode : toU16 (env.InputEvent k Index).code = (env.InputEvent k Index).code :=
      Nat.mod_eq_of_lt hc
    have hne : (env.InputEvent k Index).value ≠ 2 := by
      rcases hv with hv | hv <;> rw [hv] <;> decide
    have hrec : handleRecord h env k Index =
        emit h env k Index (env.InputEvent k Index).value.toNat
          (env.InputEvent k Index).code := by
      simp only [handleRecord, ht, hne, if_true, if_false, hval, hcode]
    refine ⟨hrec, ?_, ?_⟩
    · rw [hrec, submitted_emit, combine_nativeBytes h _ _ hc]
    · intro hw
      rw [hrec, delivered_emit h env hw, combine_nativeBytes h _ _ hc]
  · intro ht hv
    simp only [handleRecord, ht, hv, if_true]
  · intro ht
    have hrec : handleRecord h env k Index = [] := by
      simp only [handleRecord, ht, if_false]
    rw [hrec]
    exact ⟨rfl, rfl, rfl⟩

/-- Claim C2: for a value in [0, 255] and a code in [0, 65535] the two writes
hand exactly 3 bytes to the output channel, the value first and then the two
bytes of the code in the byte order of the host; decoding them gives the value
and the code back; and every 3-byte record is what the two writes hand over for
the event it decodes to. When the writes are complete the channel takes these
very bytes. -/
theorem emit_roundtrip (h : Host) (env : Env) (k Index : Nat) :
    (∀ value code, value < 256 → code < 65536 →
      submitted (emit h env k Index value code) = value :: nativeBytes h code ∧
      (submitted (emit h env k Index value code)).length = 3 ∧
      (∀ b ∈ submitted (emit h env k Index value code), b < 256) ∧
      decode h (submitted (emit h env k Index value code)) = some (value, code) ∧
      (WritesComplete env →
        delivered (emit h env k Index value code) = value :: nativeBytes h code)) ∧
    (∀ v c0 c1, v < 256 → c0 < 256 → c1 < 256 →
      decode h [v, c0, c1] = some (v, combine h c0 c1) ∧
      combine h c0 c1 < 65536 ∧
      submitted (emit h env k Index v (combine h c0 c1)) = [v, c0, c1]) := by
  refine ⟨?_, ?_⟩
  · intro value code hv hc
    refine ⟨submitted_emit h env k Index value code, ?_, ?_,
      ?_, fun hw => delivered_emit h env hw k Index value code⟩
    · rw [submitted_emit, List.length_cons, nativeBytes_length]
    · intro b hb
      rw [submitted_emit] at hb
      unfold nativeBytes at hb
      split at hb <;> simp only [List.mem_cons, List.mem_singleton, List.not_mem_nil,
        or_false] at hb <;> omega
    · rw [submitted_emit, combine_nativeBytes h value code hc]
  · intro v c0 c1 _ h0 h1
    refine ⟨rfl, ?_, ?_⟩
    · unfold combine
      split <;> omega
    · rw [submitted_emit, nativeBytes_combine h c0 c1 h0 h1]

/-- Claim C10: a key record whose 32-bit value is not 2 is written as exactly
one 3-byte record, whose first byte is the value reduced modulo 256: the test
for a repeat is made on the full value and the reduction comes after it. So a
value of 258 is written with value byte 2, a value of 256 with value byte 0
and a value of -1 with value byte 255. -/
theorem handleRecord_truncates (h : Host) (env : Env) (k Index : Nat)
    (ht : (env.InputEvent k Index).type = h.EV_KEY)
    (hv : (env.InputEvent k Index).value ≠ 2) :
    handleRecord h env k Index =
        emit h env k Index (toU8 (env.InputEvent k Index).value)
          (toU16 (env.InputEvent k Index).code) ∧
      submitted (handleRecord h env k Index) =
        toU8 (env.InputEvent k Index).value ::
          nativeBytes h (toU16 (env.InputEvent k Index).code) ∧
      (submitted (handleRecord h env k Index)).length = 3 ∧
      ((toU8 (env.InputEvent k Index).value : Nat) : Int) =
        (env.InputEvent k Index).value % 256 ∧
      ((env.InputEvent k Index).value = 258 →
        (submitted (handleRecord h env k Index)).head? = some 2) ∧
      ((env.InputEvent k Index).value = 256 →
        (submitted (handleRecord h env k Index)).head? = some 0) ∧
      ((env.InputEvent k Index).value = -1 →
        (submitted (handleRecord h env k Index)).head? = some 255) ∧
      (WritesComplete env →
        delivered (handleRecord h env k Index) = submitted (handleRecord h env k Index)) := by
  have hrec : handleRecord h env k Index =
      emit h env k Index (toU8 (env.InputEvent k Index).value)
        (toU16 (env.InputEvent k Index).code) := by
    simp only [handleRecord, ht, hv, if_true, if_false]
  refine ⟨hrec, ?_, ?_, ?_, ?_, ?_, ?_, ?_⟩
  · rw [hrec, submitted_emit]
  · rw [hrec, submitted_emit, List.length_cons, nativeBytes_length]
  · unfold toU8
    omega
  · intro h258
    rw [hrec, submitted_emit, h258]
    rfl
  · intro h256
    rw [hrec, submitted_emit, h256]
    rfl
  · intro hneg
    rw [hrec, submitted_emit, hneg]
    rfl
  · intro hw
    rw [hrec, submitted_emit, delivered_emit h env hw]

/-! ## The loops -/

theorem forLoop_eq_flatMap (body : Nat → List Event) (remaining Index : Nat) :
    forLoop body remaining Index = (List.range' Index remaining).flatMap body := by
  induction remaining generalizing Index with
  | zero => rfl
  | succ n ih =>
    rw [forLoop, ih, List.range'_succ, List.flatMap_cons]

theorem iteration_short (h : Host) (env : Env) (FileDevice : Int) (k : Nat)
    (hs : env.readRet k < (h.recordSize : Int)) :
    iteration h env FileDevice k =
      ([Event.read k (env.readRet k), Event.perror Message.readFailed,
        Event.close FileDevice], some 1) := by
  simp only [iteration, hs, if_true]

theorem iteration_full (h : Host) (env : Env) (FileDevice : Int) (k : Nat)
    (hs : ¬ env.readRet k < (h.recordSize : Int)) :
    iteration h env FileDevice k =
      (Event.read k (env.readRet k) ::
        (List.range ((env.readRet k).toNat / h.recordSize)).flatMap (handleRecord h env k),
        none) := by
  simp only [iteration, hs, if_false, forLoop_eq_flatMap, List.range_eq_range']

theorem whileLoop_short (h : Host) (env : Env) (FileDevice : Int) (fuel k : Nat)
    (hs : env.readRet k < (h.recordSize : Int)) :
    whileLoop h env FileDevice (fuel + 1) k =
      ([Event.read k (env.readRet k), Event.perror Message.readFailed,
        Event.close FileDevice], some 1) := by
  simp only [whileLoop, iteration_short h env FileDevice k hs]

theorem whileLoop_full (h : Host) (env : Env) (FileDevice : Int) (fuel k : Nat)
    (hs : ¬ env.readRet k < (h.recordSize : Int)) :
    whileLoop h env FileDevice (fuel + 1) k =
      ((iteration h env FileDevice k).1 ++ (whileLoop h env FileDevice fuel (k + 1)).1,
        (whileLoop h env FileDevice fuel (k + 1)).2) := by
  simp only [whileLoop, iteration_full h env FileDevice k hs]

/-- While the reads are full, the loop runs one round after the other. -/
theorem whileLoop_rounds (h : Host) (env : Env) (FileDevice : Int) (count fuel k : Nat)
    (hfull : ∀ j, k ≤ j → j < k + count → ¬ env.readRet j < (h.recordSize : Int)) :
    whileLoop h env FileDevice (count + fuel) k =
      (rounds h env FileDevice count k ++ (whileLoop h env FileDevice fuel (k + count)).1,
        (whileLoop h env FileDevice fuel (k + count)).2) := by
  induction count generalizing k with
  | zero => simp only [Nat.zero_add, rounds, List.nil_append, Nat.add_zero]
  | succ n ih =>
    have hk : ¬ env.readRet k < (h.recordSize : Int) := hfull k (Nat.le_refl k) (by omega)
    have hstep : n + 1 + fuel = (n + fuel) + 1 := by omega
    rw [hstep, whileLoop_full h env FileDevice _ k hk,
      ih (k + 1) (fun j hj1 hj2 => hfull j (by omega) (by omega))]
    have hidx : k + 1 + n = k + (n + 1) := by omega
    simp only [rounds, List.append_assoc, hidx]

/-- A short read within reach of the fuel ends the loop with status 1. -/
theorem whileLoop_exits (h : Host) (env : Env) (FileDevice : Int) (d : Nat) :
    ∀ k fuel, env.readRet (k + d) < (h.recordSize : Int) → d < fuel →
      (whileLoop h env FileDevice fuel k).2 = some 1 := by
  induction d with
  | zero =>
    intro k fuel hs hf
    obtain ⟨f, rfl⟩ : ∃ f, fuel = f + 1 := ⟨fuel - 1, by omega⟩
    rw [whileLoop_short h env FileDevice f k hs]
  | succ d ih =>
    intro k fuel hs hf
    obtain ⟨f, rfl⟩ : ∃ f, fuel = f + 1 := ⟨fuel - 1, by omega⟩
    by_cases hk : env.readRet k < (h.recordSize : Int)
    · rw [whileLoop_short h env FileDevice f k hk]
    · rw [whileLoop_full h env FileDevice f k hk]
      have hidx : k + 1 + d = k + (d + 1) := by omega
      exact ih (k + 1) f (by rw [hidx]; exact hs) (by omega)

/-- The loop only ends with status 1, and only on a short read. -/
theorem whileLoop_status (h : Host) (env : Env) (FileDevice : Int) (fuel : Nat) :
    ∀ k status, (whileLoop h env FileDevice fuel k).2 = some status →
      status = 1 ∧ ∃ j, k ≤ j ∧ env.readRet j < (h.recordSize : Int) := by
  induction fuel with
  | zero =>
    intro k status hst
    simp only [whileLoop] at hst
    exact absurd hst (by simp)
  | succ f ih =>
    intro k status hst
    by_cases hk : env.readRet k < (h.recordSize : Int)
    · rw [whileLoop_short h env FileDevice f k hk] at hst
      simp only [Option.some.injEq] at hst
      exact ⟨hst.symm, k, Nat.le_refl k, hk⟩
    · rw [whileLoop_full h env FileDevice f k hk] at hst
      obtain ⟨h1, j, hj, hs⟩ := ih (k + 1) status hst
      exact ⟨h1, j, by omega, hs⟩

theorem main_running (h : Host) (env : Env) (fuel : Nat)
    (hopen : env.openRet ≠ -1) (hver : env.versionRet = 0) :
    main h env fuel =
      (setup h env ++ (whileLoop h env env.openRet fuel 0).1,
        (whileLoop h env env.openRet fuel 0).2) := by
  simp only [main, hopen, hver, if_false, ne_eq, not_true_eq_false, setup]

theorem taken_length_le (e : Event) : (taken e).length ≤ (handed e).length := by
  cases e <;> simp only [taken, handed, List.length_nil, Nat.le_refl]
  case write fd bytes ret =>
    split
    · rw [List.length_take]
      exact Nat.min_le_right _ _
    · exact Nat.le_refl _

theorem delivered_length_le (t : List Event) :
    (delivered t).length ≤ (submitted t).length := by
  induction t with
  | nil => exact Nat.le_refl _
  | cons e t ih =>
    simp only [delivered, submitted, List.length_append]
    exact Nat.add_le_add (taken_length_le e) ih

theorem submitted_handleRecord_length (h : Host) (env : Env) (k Index : Nat) :
    (submitted (handleRecord h env k Index)).length = 0 ∨
      (submitted (handleRecord h env k Index)).length = 3 := by
  unfold handleRecord
  split
  · split
    · exact Or.inl rfl
    · right
      rw [submitted_emit, List.length_cons, nativeBytes_length]
  · exact Or.inl rfl

theorem delivered_handleRecord (h : Host) (env : Env) (hw : WritesComplete env)
    (k Index : Nat) :
    delivered (handleRecord h env k Index) = submitted (handleRecord h env k Index) := by
  unfold handleRecord
  split
  · split
    · rfl
    · rw [submitted_emit, delivered_emit h env hw]
  · rfl

theorem submitted_records_length (h : Host) (env : Env) (k : Nat) (l : List Nat) :
    ∃ m, m ≤ l.length ∧
      (submitted (l.flatMap (handleRecord h env k))).length = 3 * m := by
  induction l with
  | nil => exact ⟨0, Nat.le_refl _, rfl⟩
  | cons i l ih =>
    obtain ⟨m, hm, hlen⟩ := ih
    rw [List.flatMap_cons, submitted_append, List.length_append, hlen]
    rcases submitted_handleRecord_length h env k i with h0 | h3
    · exact ⟨m, by rw [List.length_cons]; omega, by omega⟩
    · exact ⟨m + 1, by rw [List.length_cons]; omega, by omega⟩

theorem delivered_records (h : Host) (env : Env) (hw : WritesComplete env) (k : Nat)
    (l : List Nat) :
    delivered (l.flatMap (handleRecord h env k)) =
      submitted (l.flatMap (handleRecord h env k)) := by
  induction l with
  | nil => rfl
  | cons i l ih =>
    rw [List.flatMap_cons, submitted_append, delivered_append, ih,
      delivered_handleRecord h env hw]

theorem handleRecord_congr (h : Host) (env env2 : Env) (k Index : Nat)
    (hev : env2.InputEvent k Index = env.InputEvent k Index)
    (hwr : ∀ j, env2.writeRet k Index j = env.writeRet k Index j) :
    handleRecord h env2 k Index = handleRecord h env k Index := by
  simp only [handleRecord, emit, hev, hwr]

theorem records_congr (h : Host) (env env2 : Env) (k : Nat) (l : List Nat)
    (hev : ∀ Index ∈ l, env2.InputEvent k Index = env.InputEvent k Index)
    (hwr : ∀ Index ∈ l, ∀ j, env2.writeRet k Index j = env.writeRet k Index j) :
    l.flatMap (handleRecord h env2 k) = l.flatMap (handleRecord h env k) := by
  induction l with
  | nil => rfl
  | cons i l ih =>
    rw [List.flatMap_cons, List.flatMap_cons,
      handleRecord_congr h env env2 k i (hev i (List.mem_cons_self i l))
        (hwr i (List.mem_cons_self i l)),
      ih (fun x hx => hev x (List.mem_cons_of_mem i hx))
        (fun x hx => hwr x (List.mem_cons_of_mem i hx))]

/-! ## Batches -/

/-- Claim C9: a read of `n` bytes with `recordSize ≤ n ≤ 64 * recordSize` is
followed by the handling of the records 0, 1, ..., `n / recordSize - 1` in this
order and of no other; each of these indices is below 64; the bytes after the
last whole record, like every record from `n / recordSize` on, have no effect
on the calls; and the batch writes a multiple of 3 bytes, at most 192. -/
theorem iteration_examines (h : Host) (env : Env) (FileDevice : Int) (k : Nat)
    (hlo : (h.recordSize : Int) ≤ env.readRet k)
    (hhi : env.readRet k ≤ 64 * (h.recordSize : Int)) :
    iteration h env FileDevice k =
        (Event.read k (env.readRet k) ::
          (List.range ((env.readRet k).toNat / h.recordSize)).flatMap (handleRecord h env k),
          none) ∧
      (env.readRet k).toNat / h.recordSize ≤ 64 ∧
      (∀ Index ∈ List.range ((env.readRet k).toNat / h.recordSize), Index < 64) ∧
      (∀ env2 : Env, (h.recordSize : Int) ≤ env2.readRet k →
        (env2.readRet k).toNat / h.recordSize = (env.readRet k).toNat / h.recordSize →
        (∀ Index, Index < (env.readRet k).toNat / h.recordSize →
          env2.InputEvent k Index = env.InputEvent k Index ∧
            ∀ j, env2.writeRet k Index j = env.writeRet k Index j) →
        (iteration h env2 FileDevice k).1.tail = (iteration h env FileDevice k).1.tail) ∧
      3 ∣ (submitted (iteration h env FileDevice k).1).length ∧
      (submitted (iteration h env FileDevice k).1).length ≤ 192 ∧
      (delivered (iteration h env FileDevice k).1).length ≤ 192 ∧
      (WritesComplete env →
        delivered (iteration h env FileDevice k).1 =
          submitted (iteration h env FileDevice k).1) := by
  have hfull : ¬ env.readRet k < (h.recordSize : Int) := by omega
  have hit := iteration_full h env FileDevice k hfull
  have hq : (env.readRet k).toNat / h.recordSize ≤ 64 := by
    rcases Nat.eq_zero_or_pos h.recordSize with h0 | hpos
    · rw [h0, Nat.div_zero]
      exact Nat.zero_le _
    · have hn : (env.readRet k).toNat ≤ 64 * h.recordSize := by omega
      calc (env.readRet k).toNat / h.recordSize
          ≤ 64 * h.recordSize / h.recordSize := Nat.div_le_div_right hn
        _ = 64 := Nat.mul_div_cancel 64 hpos
  have hsub : (submitted (iteration h env FileDevice k).1) =
      submitted ((List.range ((env.readRet k).toNat / h.recordSize)).flatMap
        (handleRecord h env k)) := by
    rw [hit]
    rfl
  obtain ⟨m, hm, hlen⟩ := submitted_records_length h env k
    (List.range ((env.readRet k).toNat / h.recordSize))
  rw [List.length_range] at hm
  have hle : (submitted (iteration h env FileDevice k).1).length ≤ 192 := by
    rw [hsub, hlen]
    omega
  refine ⟨hit, hq, ?_, ?_, ?_, hle, ?_, ?_⟩
  · intro Index hIndex
    rw [List.mem_range] at hIndex
    omega
  · intro env2 hlo2 hquot hsame
    have hfull2 : ¬ env2.readRet k < (h.recordSize : Int) := by omega
    rw [hit, iteration_full h env2 FileDevice k hfull2, List.tail_cons, List.tail_cons, hquot]
    exact records_congr h env env2 k _
      (fun Index hIndex => (hsame Index (List.mem_range.mp hIndex)).1)
      (fun Index hIndex => (hsame Index (List.mem_range.mp hIndex)).2)
  · rw [hsub, hlen]
    exact Dvd.intro m rfl
  · exact Nat.le_trans (delivered_length_le _) hle
  · intro hw
    rw [hsub, hit]
    exact delivered_records h env hw k _

/-- Claim C3: a batch of exactly three key records with the same code `c`
in [0, 65535] and the values 1, 2, 0, in this order, makes the program write the
press record and then the release record and nothing else: two 3-byte records,
in the order of the input, none for the repeat. On a little-endian host these
are `[1, c mod 256, c div 256]` and `[0, c mod 256, c div 256]`, that is
`[1, 30, 0]` and `[0, 30, 0]` for `c = 30`. -/
theorem batch_press_repeat_release (h : Host) (env : Env) (FileDevice : Int) (k c : Nat)
    (hc : c ≤ 65535) (hrs : 0 < h.recordSize)
    (hread : env.readRet k = 3 * (h.recordSize : Int))
    (h0 : (env.InputEvent k 0).type = h.EV_KEY ∧ (env.InputEvent k 0).code = c ∧
      (env.InputEvent k 0).value = 1)
    (h1 : (env.InputEvent k 1).type = h.EV_KEY ∧ (env.InputEvent k 1).code = c ∧
      (env.InputEvent k 1).value = 2)
    (h2 : (env.InputEvent k 2).type = h.EV_KEY ∧ (env.InputEvent k 2).code = c ∧
      (env.InputEvent k 2).value = 0) :
    iteration h env FileDevice k =
        ([Event.read k (env.readRet k),
          Event.write 1 [1] (env.writeRet k 0 0),
          Event.write 1 (nativeBytes h c) (env.writeRet k 0 1),
          Event.write 1 [0] (env.writeRet k 2 0),
          Event.write 1 (nativeBytes h c) (env.writeRet k 2 1)], none) ∧
      submitted (iteration h env FileDevice k).1 =
        (1 :: nativeBytes h c) ++ (0 :: nativeBytes h c) ∧
      (h.littleEndian = true →
        submitted (iteration h env FileDevice k).1 =
          [1, c % 256, c / 256] ++ [0, c % 256, c / 256]) ∧
      (h.littleEndian = true → c = 30 →
        submitted (iteration h env FileDevice k).1 = [1, 30, 0] ++ [0, 30, 0]) ∧
      (WritesComplete env →
        delivered (iteration h env FileDevice k).1 =
          (1 :: nativeBytes h c) ++ (0 :: nativeBytes h c)) := by
  have hfull : ¬ env.readRet k < (h.recordSize : Int) := by omega
  have hquot : (env.readRet k).toNat / h.recordSize = 3 := by
    have hn : (env.readRet k).toNat = 3 * h.recordSize := by omega
    rw [hn]
    exact Nat.mul_div_cancel 3 hrs
  have hc16 : toU16 c = c := Nat.mod_eq_of_lt (by omega)
  have r0 : handleRecord h env k 0 = emit h env k 0 1 c := by
    simp only [handleRecord, h0.1, h0.2.1, h0.2.2, if_true, hc16]
    rfl
  have r1 : handleRecord h env k 1 = [] := by
    simp only [handleRecord, h1.1, h1.2.2, if_true]
  have r2 : handleRecord h env k 2 = emit h env k 2 0 c := by
    simp only [handleRecord, h2.1, h2.2.1, h2.2.2, if_true, hc16]
    rfl
  have hit : iteration h env FileDevice k =
      ([Event.read k (env.readRet k),
        Event.write 1 [1] (env.writeRet k 0 0),
        Event.write 1 (nativeBytes h c) (env.writeRet k 0 1),
        Event.write 1 [0] (env.writeRet k 2 0),
        Event.write 1 (nativeBytes h c) (env.writeRet k 2 1)], none) := by
    rw [iteration_full h env FileDevice k hfull, hquot]
    simp only [List.range, List.range.loop, List.flatMap_cons, List.flatMap_nil, r0, r1, r2,
      emit, List.nil_append, List.append_nil, List.cons_append]
  have hsub : submitted (iteration h env FileDevice k).1 =
      (1 :: nativeBytes h c) ++ (0 :: nativeBytes h c) := by
    rw [hit]
    simp [submitted, handed]
  have hlittle : h.littleEndian = true → nativeBytes h c = [c % 256, c / 256] := by
    intro hle
    have hdiv : c / 256 % 256 = c / 256 := Nat.mod_eq_of_lt (by omega)
    simp only [nativeBytes, hle, if_true, hdiv]
  refine ⟨hit, hsub, ?_, ?_, ?_⟩
  · intro hle
    rw [hsub, hlittle hle]
  · intro hle h30
    rw [hsub, hlittle hle, h30]
  · intro hw
    have hlen : (nativeBytes h c).take 2 = nativeBytes h c :=
      List.take_of_length_le (by rw [nativeBytes_length])
    rw [hit]
    simp [delivered, taken, (hw k 0).1, (hw k 0).2, (hw k 2).1, (hw k 2).2, hlen]

/-! ## Termination -/

/-- Claim C4: when the `k`-th read leaves less than one record, this very
iteration reports the error, closes the device and ends the process with
status 1; the loop issues no other call, so no read and no write follows the
short read, and no byte reaches the output. In a run where the device opened,
the version query succeeded and the reads before the `k`-th were full, every
bound above `k` on the iterations gives this same final trace. -/
theorem short_read_is_fatal (h : Host) (env : Env) (FileDevice : Int) (k : Nat)
    (hshort : env.readRet k < (h.recordSize : Int)) :
    iteration h env FileDevice k =
        ([Event.read k (env.readRet k), Event.perror Message.readFailed,
          Event.close FileDevice], some 1) ∧
      (∀ fuel, whileLoop h env FileDevice (fuel + 1) k =
        ([Event.read k (env.readRet k), Event.perror Message.readFailed,
          Event.close FileDevice], some 1)) ∧
      submitted (iteration h env FileDevice k).1 = [] ∧
      delivered (iteration h env FileDevice k).1 = [] ∧
      (env.openRet ≠ -1 → env.versionRet = 0 →
        (∀ j, j < k → ¬ env.readRet j < (h.recordSize : Int)) →
        ∀ fuel, k < fuel →
          main h env fuel =
            (setup h env ++ (rounds h env env.openRet k 0 ++
              [Event.read k (env.readRet k), Event.perror Message.readFailed,
                Event.close env.openRet]), some 1)) := by
  have hit := iteration_short h env FileDevice k hshort
  refine ⟨hit, fun fuel => whileLoop_short h env FileDevice fuel k hshort, ?_, ?_, ?_⟩
  · rw [hit]
    rfl
  · rw [hit]
    rfl
  · intro hopen hver hfull fuel hfuel
    obtain ⟨f, rfl⟩ : ∃ f, fuel = k + (f + 1) := ⟨fuel - k - 1, by omega⟩
    rw [main_running h env _ hopen hver,
      whileLoop_rounds h env env.openRet k (f + 1) 0
        (fun j _ hj => hfull j (by omega)),
      Nat.zero_add, whileLoop_short h env env.openRet f k hshort]

/-- Claim C5: `main` ends exactly when the device fails to open, or the version
query fails, or some read leaves less than one record; it then ends with
status 1 under every large enough bound on the iterations, and no status other
than 1 is ever produced. The identity query and the event-bits query have no
part in this: when the device opens and the version query succeeds, the first
read is issued right after them, whatever they return. -/
theorem main_terminates_iff (h : Host) (env : Env) :
    ((∃ fuel, (main h env fuel).2 = some 1) ↔
        (env.openRet = -1 ∨ env.versionRet ≠ 0 ∨
          ∃ k, env.readRet k < (h.recordSize : Int))) ∧
      ((env.openRet = -1 ∨ env.versionRet ≠ 0 ∨
          ∃ k, env.readRet k < (h.recordSize : Int)) →
        ∃ bound, ∀ fuel, bound ≤ fuel → (main h env fuel).2 = some 1) ∧
      (∀ fuel status, (main h env fuel).2 = some status → status = 1) ∧
      (¬ (env.openRet = -1 ∨ env.versionRet ≠ 0 ∨
          ∃ k, env.readRet k < (h.recordSize : Int)) →
        ∀ fuel, (main h env fuel).2 = none) ∧
      (env.openRet ≠ -1 → env.versionRet = 0 →
        ∀ fuel, ∃ rest,
          (main h env (fuel + 1)).1 =
            block_stdin h env ++
              [Event.openDevice env.openRet, Event.ioctlVersion env.versionRet,
                Event.fprintfVersion (env.version >>> 16) ((env.version >>> 8) % 256)
                  (env.version % 256),
                Event.ioctlId env.idRet,
                Event.fprintfId (env.id 0) (env.id 1) (env.id 2) (env.id 3),
                Event.ioctlBit env.bitRet,
                Event.read 0 (env.readRet 0)] ++ rest) := by
  have hstatus : ∀ fuel status, (main h env fuel).2 = some status →
      status = 1 ∧ (env.openRet = -1 ∨ env.versionRet ≠ 0 ∨
        ∃ k, env.readRet k < (h.recordSize : Int)) := by
    intro fuel status hst
    by_cases hopen : env.openRet = -1
    · simp only [main, hopen, if_true, Option.some.injEq] at hst
      exact ⟨hst.symm, Or.inl hopen⟩
    · by_cases hver : env.versionRet = 0
      · rw [main_running h env fuel hopen hver] at hst
        obtain ⟨h1, j, _, hj⟩ := whileLoop_status h env env.openRet fuel 0 status hst
        exact ⟨h1, Or.inr (Or.inr ⟨j, hj⟩)⟩
      · simp only [main, hopen, hver, if_false, ne_eq, not_false_eq_true, if_true,
          Option.some.injEq] at hst
        exact ⟨hst.symm, Or.inr (Or.inl hver)⟩
  have hends : (env.openRet = -1 ∨ env.versionRet ≠ 0 ∨
      ∃ k, env.readRet k < (h.recordSize : Int)) →
      ∃ bound, ∀ fuel, bound ≤ fuel → (main h env fuel).2 = some 1 := by
    intro hcause
    by_cases hopen : env.openRet = -1
    · exact ⟨0, fun fuel _ => by simp only [main, hopen, if_true]⟩
    · by_cases hver : env.versionRet = 0
      · rcases hcause with h1 | h2 | ⟨k, hk⟩
        · exact absurd h1 hopen
        · exact absurd hver h2
        · refine ⟨k + 1, fun fuel hfuel => ?_⟩
          rw [main_running h env fuel hopen hver]
          exact whileLoop_exits h env env.openRet k 0 fuel (by rw [Nat.zero_add]; exact hk)
            (by omega)
      · exact ⟨0, fun fuel _ => by
          simp only [main, hopen, hver, if_false, ne_eq, not_false_eq_true, if_true]⟩
  refine ⟨⟨?_, ?_⟩, hends, fun fuel status hst => (hstatus fuel status hst).1, ?_, ?_⟩
  · rintro ⟨fuel, hst⟩
    exact (hstatus fuel 1 hst).2
  · intro hcause
    obtain ⟨bound, hb⟩ := hends hcause
    exact ⟨bound, hb bound (Nat.le_refl bound)⟩
  · intro hno fuel
    cases hres : (main h env fuel).2 with
    | none => rfl
    | some status => exact absurd (hstatus fuel status hres).2 hno
  · intro hopen hver fuel
    rw [main_running h env (fuel + 1) hopen hver]
    by_cases hk : env.readRet 0 < (h.recordSize : Int)
    · refine ⟨[Event.perror Message.readFailed, Event.close env.openRet], ?_⟩
      rw [whileLoop_short h env env.openRet fuel 0 hk]
      simp only [setup, report, List.append_assoc, List.cons_append, List.nil_append]
    · refine ⟨(List.range ((env.readRet 0).toNat / h.recordSize)).flatMap
        (handleRecord h env 0) ++ (whileLoop h env env.openRet fuel 1).1, ?_⟩
      rw [whileLoop_full h env env.openRet fuel 0 hk, iteration_full h env env.openRet 0 hk]
      simp only [setup, report, List.append_assoc, List.cons_append, List.nil_append]

/-- Only the reads decide whether and how the loop ends. -/
theorem whileLoop_status_congr (h : Host) (env env2 : Env) (FileDevice FileDevice2 : Int)
    (hread : ∀ k, env2.readRet k = env.readRet k) (fuel : Nat) :
    ∀ k, (whileLoop h env2 FileDevice2 fuel k).2 = (whileLoop h env FileDevice fuel k).2 := by
  induction fuel with
  | zero =>
    intro k
    rfl
  | succ f ih =>
    intro k
    by_cases hk : env.readRet k < (h.recordSize : Int)
    · rw [whileLoop_short h env FileDevice f k hk,
        whileLoop_short h env2 FileDevice2 f k (by rw [hread]; exact hk)]
    · rw [whileLoop_full h env FileDevice f k hk,
        whileLoop_full h env2 FileDevice2 f k (by rw [hread]; exact hk)]
      exact ih (k + 1)

theorem main_status_congr (h : Host) (env env2 : Env) (fuel : Nat)
    (hopen : env2.openRet = env.openRet) (hver : env2.versionRet = env.versionRet)
    (hread : ∀ k, env2.readRet k = env.readRet k) :
    (main h env2 fuel).2 = (main h env fuel).2 := by
  by_cases ho : env.openRet = -1
  · simp only [main, hopen, ho, if_true]
  · by_cases hv : env.versionRet = 0
    · rw [main_running h env fuel ho hv,
        main_running h env2 fuel (by rw [hopen]; exact ho) (by rw [hver]; exact hv)]
      exact whileLoop_status_congr h env env2 _ _ hread fuel 0
    · simp only [main, hopen, hver, ho, hv, if_false, ne_eq, not_false_eq_true, if_true]

/-- The first three calls of `main` are those of `block_stdin` and the `open`. -/
theorem main_begins (h : Host) (env : Env) (fuel : Nat) :
    ∃ rest, (main h env fuel).1 =
      block_stdin h env ++ Event.openDevice env.openRet :: rest := by
  by_cases ho : env.openRet = -1
  · exact ⟨[Event.perror Message.openFailed], by simp only [main, ho, if_true]⟩
  · by_cases hv : env.versionRet = 0
    · refine ⟨Event.ioctlVersion env.versionRet ::
        (report env ++ (whileLoop h env env.openRet fuel 0).1), ?_⟩
      rw [main_running h env fuel ho hv]
      simp only [setup, List.append_assoc, List.cons_append, List.nil_append]
    · exact ⟨[Event.ioctlVersion env.versionRet, Event.perror Message.versionFailed,
        Event.close env.openRet], by
          simp only [main, ho, hv, if_false, ne_eq, not_false_eq_true, if_true]⟩

/-! ## The terminal -/

theorem notMask_eq (mask : Nat) : notMask mask = 2 ^ 32 - (mask % 2 ^ 32 + 1) := by
  unfold notMask
  omega

theorem testBit_notMask (mask i : Nat) :
    (notMask mask).testBit i = (decide (i < 32) && !mask.testBit i) := by
  rw [notMask_eq, Nat.testBit_two_pow_sub_succ (Nat.mod_lt _ (by decide)),
    Nat.testBit_mod_two_pow]
  by_cases hi : i < 32 <;> simp [hi]

theorem land_notMask_eq_zero (flags mask part : Nat)
    (hpart : ∀ i, part.testBit i = true → mask.testBit i = true) :
    (flags &&& notMask mask) &&& part = 0 := by
  apply Nat.eq_of_testBit_eq
  intro i
  rw [Nat.testBit_land, Nat.testBit_land, testBit_notMask, Nat.zero_testBit]
  cases hp : part.testBit i
  · simp
  · simp [hpart i hp]

/-- Claim C7: `block_stdin` asks for the attributes and commits a set in which
`ECHO` and `ICANON` are cleared, `c_cc[VMIN]` is 0 and `c_cc[VTIME]` is 1,
while every other bit of `c_lflag`, every other control character and every
other field is as it was read. It never ends the process: whatever the two
calls return, the next call of `main` is the `open` of the device, and the
exit status of `main` does not depend on what they return. -/
theorem block_stdin_commits (h : Host) (env : Env)
    (hmin : h.VMIN < env.stdin_term.c_cc.length)
    (htime : h.VTIME < env.stdin_term.c_cc.length)
    (hne : h.VMIN ≠ h.VTIME) :
    (∃ attrs : termios,
      block_stdin h env =
        [Event.tcgetattr 0 env.tcgetattrRet, Event.tcsetattr 0 attrs env.tcsetattrRet] ∧
      attrs.c_lflag &&& h.ECHO = 0 ∧
      attrs.c_lflag &&& h.ICANON = 0 ∧
      (∀ i, i < 32 → (h.ECHO ||| h.ICANON).testBit i = false →
        attrs.c_lflag.testBit i = env.stdin_term.c_lflag.testBit i) ∧
      attrs.c_cc[h.VMIN]? = some 0 ∧
      attrs.c_cc[h.VTIME]? = some 1 ∧
      (∀ i, i ≠ h.VMIN → i ≠ h.VTIME → attrs.c_cc[i]? = env.stdin_term.c_cc[i]?) ∧
      attrs.c_cc.length = env.stdin_term.c_cc.length ∧
      attrs.c_iflag = env.stdin_term.c_iflag ∧
      attrs.c_oflag = env.stdin_term.c_oflag ∧
      attrs.c_cflag = env.stdin_term.c_cflag ∧
      attrs.c_line = env.stdin_term.c_line ∧
      attrs.c_ispeed = env.stdin_term.c_ispeed ∧
      attrs.c_ospeed = env.stdin_term.c_ospeed) ∧
    (∀ fuel, (main h env fuel).1[2]? = some (Event.openDevice env.openRet)) ∧
    (∀ (get set : Int) fuel,
      (main h { env with tcgetattrRet := get, tcsetattrRet := set } fuel).2 =
        (main h env fuel).2) := by
  refine ⟨⟨_, rfl, ?_, ?_, ?_, ?_, ?_, ?_, ?_, rfl, rfl, rfl, rfl, rfl, rfl⟩, ?_, ?_⟩
  · exact land_notMask_eq_zero _ _ _ (fun i hi => by rw [Nat.testBit_lor, hi, Bool.true_or])
  · exact land_notMask_eq_zero _ _ _ (fun i hi => by rw [Nat.testBit_lor, hi, Bool.or_true])
  · intro i hi hbit
    show (env.stdin_term.c_lflag &&& notMask (h.ECHO ||| h.ICANON)).testBit i = _
    rw [Nat.testBit_land, testBit_notMask, hbit]
    simp [hi]
  · show ((env.stdin_term.c_cc.set h.VMIN 0).set h.VTIME 1)[h.VMIN]? = some 0
    rw [List.getElem?_set, if_neg (Ne.symm hne), List.getElem?_set, if_pos rfl, if_pos hmin]
  · show ((env.stdin_term.c_cc.set h.VMIN 0).set h.VTIME 1)[h.VTIME]? = some 1
    rw [List.getElem?_set, if_pos rfl, if_pos (by rw [List.length_set]; exact htime)]
  · intro i h1 h2
    show ((env.stdin_term.c_cc.set h.VMIN 0).set h.VTIME 1)[i]? = _
    rw [List.getElem?_set, if_neg (Ne.symm h2), List.getElem?_set, if_neg (Ne.symm h1)]
  · show ((env.stdin_term.c_cc.set h.VMIN 0).set h.VTIME 1).length = _
    rw [List.length_set, List.length_set]
  · intro fuel
    obtain ⟨rest, hrest⟩ := main_begins h env fuel
    rw [hrest]
    simp [block_stdin]
  · intro get set fuel
    exact main_status_congr h env _ fuel rfl rfl (fun _ => rfl)

/-- Claim C8, as the code has it: the terminal mode is applied first. In every
run the first two calls are the attribute query and the commit of the changed
attributes and the third is the `open` of the device; so a run in which the
device does not open, or in which the version query fails, has committed the
changed attributes before it ends with status 1. -/
theorem terminal_mode_applied_first (h : Host) (env : Env) (fuel : Nat) :
    (∃ rest, (main h env fuel).1 =
      block_stdin h env ++ Event.openDevice env.openRet :: rest) ∧
    (∃ attrs, block_stdin h env =
      [Event.tcgetattr 0 env.tcgetattrRet, Event.tcsetattr 0 attrs env.tcsetattrRet]) ∧
    (env.openRet = -1 →
      main h env fuel =
        (block_stdin h env ++
          [Event.openDevice env.openRet, Event.perror Message.openFailed], some 1)) ∧
    (env.openRet ≠ -1 → env.versionRet ≠ 0 →
      main h env fuel =
        (block_stdin h env ++
          [Event.openDevice env.openRet, Event.ioctlVersion env.versionRet,
            Event.perror Message.versionFailed, Event.close env.openRet], some 1)) := by
  refine ⟨main_begins h env fuel, ⟨_, rfl⟩, ?_, ?_⟩
  · intro ho
    simp only [main, ho, if_true]
  · intro ho hv
    simp only [main, ho, hv, if_false, ne_eq, not_false_eq_true, if_true]

/-- Claim C8 fails on the code: in the sample run whose device cannot be
opened, the changed attributes are committed before the `open` is tried. -/
theorem terminal_changed_before_open :
    main linux64 envOpenFails 0 =
        ([Event.tcgetattr 0 0, Event.tcsetattr 0 rawTerm 0, Event.openDevice (-1),
          Event.perror Message.openFailed], some 1) ∧
      rawTerm ≠ envOpenFails.stdin_term := by
  decide

/-! ## Failed writes -/

theorem forget_handleRecord (h : Host) (env env2 : Env) (k Index : Nat)
    (hev : env2.InputEvent k Index = env.InputEvent k Index) :
    (handleRecord h env2 k Index).map forget = (handleRecord h env k Index).map forget := by
  unfold handleRecord
  rw [hev]
  split
  · split
    · rfl
    · simp only [emit, List.map_cons, List.map_nil, forget]
  · rfl

theorem forget_iteration (h : Host) (env env2 : Env) (FileDevice : Int) (k : Nat)
    (hread : env2.readRet k = env.readRet k)
    (hev : ∀ Index, env2.InputEvent k Index = env.InputEvent k Index) :
    (iteration h env2 FileDevice k).1.map forget =
        (iteration h env FileDevice k).1.map forget := by
  by_cases hk : env.readRet k < (h.recordSize : Int)
  · rw [iteration_short h env FileDevice k hk,
      iteration_short h env2 FileDevice k (by rw [hread]; exact hk), hread]
  · rw [iteration_full h env FileDevice k hk,
      iteration_full h env2 FileDevice k (by rw [hread]; exact hk), hread]
    simp only [List.map_cons, List.map_flatMap]
    rw [List.flatMap_congr (fun Index _ => forget_handleRecord h env env2 k Index (hev Index))]

theorem forget_whileLoop (h : Host) (env env2 : Env) (FileDevice : Int)
    (hread : ∀ k, env2.readRet k = env.readRet k)
    (hev : ∀ k Index, env2.InputEvent k Index = env.InputEvent k Index) (fuel : Nat) :
    ∀ k, (whileLoop h env2 FileDevice fuel k).1.map forget =
      (whileLoop h env FileDevice fuel k).1.map forget := by
  induction fuel with
  | zero =>
    intro k
    rfl
  | succ f ih =>
    intro k
    by_cases hk : env.readRet k < (h.recordSize : Int)
    · rw [whileLoop_short h env FileDevice f k hk,
        whileLoop_short h env2 FileDevice f k (by rw [hread]; exact hk), hread]
    · rw [whileLoop_full h env FileDevice f k hk,
        whileLoop_full h env2 FileDevice f k (by rw [hread]; exact hk)]
      simp only [List.map_append]
      rw [ih (k + 1), forget_iteration h env env2 FileDevice k (hread k) (hev k)]

/-- Claim C6, as the code has it: `main` never looks at what a `write`
returns. Whatever the writes return, failures included, the exit status is the
same under every bound on the iterations, and so is the sequence of calls with
their arguments, the reads and the writes that follow a failed write among
them. A failed write therefore does not end the process. -/
theorem write_result_ignored (h : Host) (env : Env) (answers : Nat → Nat → Nat → Int)
    (fuel : Nat) :
    (main h { env with writeRet := answers } fuel).2 = (main h env fuel).2 ∧
      (main h { env with writeRet := answers } fuel).1.map forget =
        (main h env fuel).1.map forget := by
  refine ⟨main_status_congr h env _ fuel rfl rfl (fun _ => rfl), ?_⟩
  by_cases ho : env.openRet = -1
  · simp only [main, ho, if_true]
    rfl
  · by_cases hv : env.versionRet = 0
    · rw [main_running h env fuel ho hv,
        main_running h { env with writeRet := answers } fuel ho hv]
      simp only [List.map_append]
      rw [forget_whileLoop h env { env with writeRet := answers } env.openRet
        (fun _ => rfl) (fun _ _ => rfl) fuel 0]
      rfl
    · simp only [main, ho, hv, if_false, ne_eq, not_false_eq_true, if_true]
      rfl

/-- Claim C6 fails on the code: in the run whose writes all fail, the failed
write of the value byte is followed by the write of the code and by the next
read, and the process does not end, whatever the bound on the iterations. -/
theorem failed_write_not_fatal :
    main linux64 envWriteFails 2 =
        ([Event.tcgetattr 0 0, Event.tcsetattr 0 rawTerm 0, Event.openDevice 3,
          Event.ioctlVersion 0, Event.fprintfVersion 1 0 1, Event.ioctlId 0,
          Event.fprintfId 1 1 1 1, Event.ioctlBit 0,
          Event.read 0 24, Event.write 1 [1] (-1), Event.write 1 [30, 0] (-1),
          Event.read 1 24, Event.write 1 [1] (-1), Event.write 1 [30, 0] (-1)], none) ∧
      ∀ fuel, (main linux64 envWriteFails fuel).2 = none := by
  refine ⟨by decide, fun fuel => ?_⟩
  cases hres : (main linux64 envWriteFails fuel).2 with
  | none => rfl
  | some status =>
    rw [main_running linux64 envWriteFails fuel (by decide) rfl] at hres
    obtain ⟨_, j, _, hj⟩ := whileLoop_status linux64 envWriteFails _ fuel 0 status hres
    have hfull : ¬ ((24 : Int) < ((24 : Nat) : Int)) := by decide
    exact absurd hj hfull

/-! ## The claims on the sample runs -/

/-- The filter of claim C1 on the sample buffer: the press is forwarded, the
repeat and the synchronization record are not. -/
theorem handleRecord_filter_witness :
    (sampleEnv.InputEvent 0 0).type = linux64.EV_KEY ∧
      (sampleEnv.InputEvent 0 0).value = 1 ∧
      (sampleEnv.InputEvent 0 0).code < 65536 ∧
      handleRecord linux64 sampleEnv 0 0 = emit linux64 sampleEnv 0 0 1 30 ∧
      (sampleEnv.InputEvent 0 1).value = 2 ∧
      handleRecord linux64 sampleEnv 0 1 = [] ∧
      (sampleEnv.InputEvent 0 3).type ≠ linux64.EV_KEY ∧
      handleRecord linux64 sampleEnv 0 3 = [] :=
  ⟨by decide, by decide, by decide,
    ((handleRecord_filter linux64 sampleEnv 0 0).1 (by decide) (Or.inl (by decide))
      (by decide)).1,
    by decide,
    (handleRecord_filter linux64 sampleEnv 0 1).2.1 (by decide) (by decide),
    by decide,
    ((handleRecord_filter linux64 sampleEnv 0 3).2.2 (by decide)).1⟩

/-- The round trip of claim C2 for the press of the key with code 30. -/
theorem emit_roundtrip_witness :
    (1 < 256 ∧ 30 < 65536) ∧
      submitted (emit linux64 sampleEnv 0 0 1 30) = 1 :: nativeBytes linux64 30 ∧
      (submitted (emit linux64 sampleEnv 0 0 1 30)).length = 3 ∧
      decode linux64 (submitted (emit linux64 sampleEnv 0 0 1 30)) = some (1, 30) ∧
      submitted (emit linux64 sampleEnv 0 0 1 (combine linux64 30 0)) = [1, 30, 0] :=
  ⟨⟨by decide, by decide⟩,
    ((emit_roundtrip linux64 sampleEnv 0 0).1 1 30 (by decide) (by decide)).1,
    ((emit_roundtrip linux64 sampleEnv 0 0).1 1 30 (by decide) (by decide)).2.1,
    ((emit_roundtrip linux64 sampleEnv 0 0).1 1 30 (by decide) (by decide)).2.2.2.1,
    ((emit_roundtrip linux64 sampleEnv 0 0).2 1 30 0 (by decide) (by decide)
      (by decide)).2.2⟩

/-- The scenario of claim C3 for the key with code 30 on `linux64`. -/
theorem batch_press_repeat_release_witness :
    sampleEnv.readRet 0 = 3 * (linux64.recordSize : Int) ∧
      submitted (iteration linux64 sampleEnv 3 0).1 = [1, 30, 0] ++ [0, 30, 0] ∧
      delivered (iteration linux64 sampleEnv 3 0).1 =
        (1 :: nativeBytes linux64 30) ++ (0 :: nativeBytes linux64 30) :=
  ⟨by decide,
    (batch_press_repeat_release linux64 sampleEnv 3 0 30 (by decide) (by decide) (by decide)
      (by decide) (by decide) (by decide)).2.2.2.1 rfl rfl,
    (batch_press_repeat_release linux64 sampleEnv 3 0 30 (by decide) (by decide) (by decide)
      (by decide) (by decide) (by decide)).2.2.2.2 (fun _ _ => ⟨rfl, rfl⟩)⟩

/-- The short read of claim C4 in the sample run: the third read fails. -/
theorem short_read_is_fatal_witness :
    sampleEnv.readRet 2 < (linux64.recordSize : Int) ∧
      ∀ fuel, 2 < fuel →
        main linux64 sampleEnv fuel =
          (setup linux64 sampleEnv ++ (rounds linux64 sampleEnv sampleEnv.openRet 2 0 ++
            [Event.read 2 (sampleEnv.readRet 2), Event.perror Message.readFailed,
              Event.close sampleEnv.openRet]), some 1) :=
  ⟨by decide,
    (short_read_is_fatal linux64 sampleEnv 3 2 (by decide)).2.2.2.2 (by decide) rfl
      (by decide)⟩

/-- The two sides of claim C5: the sample run ends with status 1, the run whose
reads are all full never ends. -/
theorem main_terminates_iff_witness :
    (∃ fuel, (main linux64 sampleEnv fuel).2 = some 1) ∧
      ∀ fuel, (main linux64 envWriteFails fuel).2 = none :=
  ⟨(main_terminates_iff linux64 sampleEnv).1.2 (Or.inr (Or.inr ⟨2, by decide⟩)),
    (main_terminates_iff linux64 envWriteFails).2.2.2.1 (by
      rintro (ho | hv | ⟨k, hk⟩)
      · exact absurd ho (by decide)
      · exact hv rfl
      · have hfull : ¬ ((24 : Int) < ((24 : Nat) : Int)) := by decide
        exact hfull hk)⟩

/-- The commit of claim C7 in the sample run: `cookedTerm` becomes `rawTerm`. -/
theorem block_stdin_commits_witness :
    (linux64.VMIN < sampleEnv.stdin_term.c_cc.length ∧
        linux64.VTIME < sampleEnv.stdin_term.c_cc.length ∧ linux64.VMIN ≠ linux64.VTIME) ∧
      block_stdin linux64 sampleEnv = [Event.tcgetattr 0 0, Event.tcsetattr 0 rawTerm 0] ∧
      ∀ fuel, (main linux64 sampleEnv fuel).1[2]? = some (Event.openDevice sampleEnv.openRet) :=
  ⟨⟨by decide, by decide, by decide⟩, by decide,
    (block_stdin_commits linux64 sampleEnv (by decide) (by decide) (by decide)).2.1⟩

/-- The order of claim C8 in the runs whose device does not open and whose
version query fails. -/
theorem terminal_mode_applied_first_witness :
    envOpenFails.openRet = -1 ∧
      main linux64 envOpenFails 5 =
        (block_stdin linux64 envOpenFails ++
          [Event.openDevice envOpenFails.openRet, Event.perror Message.openFailed], some 1) ∧
      (envVersionFails.openRet ≠ -1 ∧ envVersionFails.versionRet ≠ 0) ∧
      main linux64 envVersionFails 5 =
        (block_stdin linux64 envVersionFails ++
          [Event.openDevice envVersionFails.openRet,
            Event.ioctlVersion envVersionFails.versionRet,
            Event.perror Message.versionFailed, Event.close envVersionFails.openRet],
          some 1) :=
  ⟨by decide,
    (terminal_mode_applied_first linux64 envOpenFails 5).2.2.1 (by decide),
    ⟨by decide, by decide⟩,
    (terminal_mode_applied_first linux64 envVersionFails 5).2.2.2 (by decide) (by decide)⟩

/-- The batch of claim C9 in the sample run: 128 bytes are five records and 8
bytes more. -/
theorem iteration_examines_witness :
    ((linux64.recordSize : Int) ≤ sampleEnv.readRet 1 ∧
        sampleEnv.readRet 1 ≤ 64 * (linux64.recordSize : Int)) ∧
      (sampleEnv.readRet 1).toNat / linux64.recordSize = 5 ∧
      iteration linux64 sampleEnv 3 1 =
        (Event.read 1 (sampleEnv.readRet 1) ::
          (List.range ((sampleEnv.readRet 1).toNat / linux64.recordSize)).flatMap
            (handleRecord linux64 sampleEnv 1), none) ∧
      3 ∣ (submitted (iteration linux64 sampleEnv 3 1).1).length ∧
      (submitted (iteration linux64 sampleEnv 3 1).1).length ≤ 192 :=
  ⟨⟨by decide, by decide⟩, by decide,
    (iteration_examines linux64 sampleEnv 3 1 (by decide) (by decide)).1,
    (iteration_examines linux64 sampleEnv 3 1 (by decide) (by decide)).2.2.2.2.1,
    (iteration_examines linux64 sampleEnv 3 1 (by decide) (by decide)).2.2.2.2.2.1⟩

/-- The truncation of claim C10 on the record with value 258 of the sample
buffer. -/
theorem handleRecord_truncates_witness :
    ((sampleEnv.InputEvent 1 4).type = linux64.EV_KEY ∧
        (sampleEnv.InputEvent 1 4).value ≠ 2 ∧ (sampleEnv.InputEvent 1 4).value = 258) ∧
      (submitted (handleRecord linux64 sampleEnv 1 4)).length = 3 ∧
      (submitted (handleRecord linux64 sampleEnv 1 4)).head? = some 2 :=
  ⟨⟨by decide, by decide, by decide⟩,
    (handleRecord_truncates linux64 sampleEnv 1 4 (by decide) (by decide)).2.2.1,
    (handleRecord_truncates linux64 sampleEnv 1 4 (by decide) (by decide)).2.2.2.2.1
      (by decide)⟩

end Kbd
